import Mathlib

/-!
Verification of TD-Launcher-Plus configuration and version-resolution logic.

A shallow embedding of the core logic of `config.py`, `td_manager.py` and
`td_launcher.py`: recent-file reconciliation, template reordering, config
load/migration, version-string parsing, closest-version fallback matching,
project-file inspection, and the per-session analysis cache.

Strings are modelled as `List Char` (accessed from string literals via
`String.data`) so that every operation is a structurally recursive,
kernel-computable function.  Timestamps (`time.time()` floats in Python) are
modelled as integers: every property proved here depends only on their linear
order.  Filesystem, registry and subprocess effects are modelled as explicit
inputs (the values the corresponding reads would produce).
-/

/-- Character list standing for a Python `str`. -/
abbrev Str := List Char

/-- `str.lower()` (ASCII case mapping; the repository only handles ASCII paths). -/
def strLower (s : Str) : Str := s.map Char.toLower

/-- Auxiliary for `splitOnChar`: accumulates the current (reversed) fragment. -/
def splitOnCharAux (c : Char) : Str → Str → List Str
| cur, [] => [cur.reverse]
| cur, x :: xs =>
  if x = c then cur.reverse :: splitOnCharAux c [] xs
  else splitOnCharAux c (x :: cur) xs

/-- Python `s.split(sep)` for a one-character separator: adjacent separators
produce empty fragments and `''.split(sep) == ['']`. -/
def splitOnChar (c : Char) (l : Str) : List Str := splitOnCharAux c [] l

/-- Python `s.replace(old, new)` for one-character `old` and `new`. -/
def replaceChar (old new : Char) (s : Str) : Str :=
  s.map (fun c => if c = old then new else c)

/-- Python `s.replace(old, '')` for a one-character `old` (used for `'\r'`). -/
def dropCharAll (old : Char) (s : Str) : Str := s.filter (· ≠ old)

/-- Python `s.strip()` (whitespace on both ends). -/
def strTrim (s : Str) : Str :=
  ((s.dropWhile Char.isWhitespace).reverse.dropWhile Char.isWhitespace).reverse

/-- Python `s.startswith(p)`. -/
def strStarts (p s : Str) : Bool := p.isPrefixOf s

/-- Python `s.endswith(p)`. -/
def strEnds (p s : Str) : Bool := p.reverse.isPrefixOf s.reverse

/-- Digit-run accumulator for `pyInt?`; fails on the first non-digit. -/
def digitsNatAux : Option Nat → Str → Option Nat
| acc, [] => acc
| acc, c :: cs =>
  if c.isDigit then digitsNatAux (acc.map (fun n => n * 10 + (c.toNat - 48))) cs
  else none

/-- A non-empty decimal digit run, or failure. -/
def digitsNat? (s : Str) : Option Nat :=
  match s with
  | [] => none
  | _ => digitsNatAux (some 0) s

/-- Python `int(s)` for decimal strings: strips whitespace, optional sign,
then a non-empty digit run; `none` models a raised `ValueError`.
(Underscore digit separators, accepted by CPython, are not modelled; the
repository never feeds them.) -/
def pyInt? (s : Str) : Option Int :=
  let t := strTrim s
  match t with
  | '-' :: rest => (digitsNat? rest).map (fun n => -(n : Int))
  | '+' :: rest => (digitsNat? rest).map (fun n => (n : Int))
  | _ => (digitsNat? t).map (fun n => (n : Int))

/-- Python list slicing `l[:k]` for a possibly negative `k`. -/
def pyTake (k : Int) (l : List α) : List α :=
  if 0 ≤ k then l.take k.toNat
  else l.take ((l.length : Int) + k).toNat

/-! ## os.path model

`config.py` normalizes paths with
`os.path.normcase(os.path.normpath(os.path.abspath(p)))`; this behaves
differently per platform, so the model carries the platform and the process
working directory explicitly.  `ntpath`'s `\\?\`/`\\.\` prefixes, UNC drives
and drive-relative paths are not modelled (the repository never constructs
them); drive-letter and rooted paths are. -/

inductive Platform | windows | darwin | linux
deriving DecidableEq, Repr

/-- One step of the `normpath` component loop, shared verbatim between
`posixpath.normpath` and `ntpath.normpath`: skip `''` and `'.'`, pop a trailing
component on `'..'` (unless at an unrooted start or after another `'..'`,
where `'..'` is kept, or at a rooted start, where it is dropped).
The accumulator holds the components in reverse. -/
def headIsDotdot : List Str → Bool
| c :: _ => c = ['.', '.']
| [] => false

def normCompStep (rooted : Bool) (acc : List Str) (comp : Str) : List Str :=
  if comp = [] ∨ comp = ['.'] then acc
  else if comp ≠ ['.', '.'] ∨ (rooted = false ∧ acc = []) ∨ headIsDotdot acc = true then
    comp :: acc
  else match acc with
       | _ :: rest => rest
       | [] => acc

/-- `posixpath.normpath`. -/
def posixNormpath (p : Str) : Str :=
  if p = [] then ['.']
  else
    let slashes : Nat :=
      if strStarts "/".data p then
        (if strStarts "//".data p ∧ ¬ strStarts "///".data p then 2 else 1)
      else 0
    let comps := splitOnChar '/' p
    let newComps := (comps.foldl (normCompStep (slashes ≠ 0)) []).reverse
    let path := List.replicate slashes '/' ++ List.intercalate "/".data newComps
    if path = [] then ['.'] else path

/-- `posixpath.join` for two arguments. -/
def posixJoin (a b : Str) : Str :=
  if strStarts "/".data b then b
  else if a = [] ∨ strEnds "/".data a then a ++ b
  else a ++ "/".data ++ b

/-- `posixpath.abspath` with an explicit working directory. -/
def posixAbspath (cwd p : Str) : Str :=
  posixNormpath (if strStarts "/".data p then p else posixJoin cwd p)

/-- `ntpath.splitdrive`, drive-letter form (`"c:..."`); UNC server/share
drives are not modelled and yield an empty drive. -/
def ntSplitdrive (p : Str) : Str × Str :=
  match p with
  | a :: ':' :: rest => ([a, ':'], rest)
  | _ => ([], p)

/-- `ntpath.normpath` (drive-letter and rooted paths). -/
def ntNormpath (p : Str) : Str :=
  let p := replaceChar '/' '\\' p
  let (drive, rest) := ntSplitdrive p
  let (pfx, rest) :=
    if strStarts "\\".data rest then (drive ++ "\\".data, rest.dropWhile (· = '\\'))
    else (drive, rest)
  let comps := ((splitOnChar '\\' rest).foldl (normCompStep (strEnds "\\".data pfx)) []).reverse
  let comps := if pfx = [] ∧ comps = [] then [['.']] else comps
  pfx ++ List.intercalate "\\".data comps

/-- `ntpath.isabs`. -/
def ntIsabs (p : Str) : Bool :=
  let r := (ntSplitdrive p).2
  strStarts "\\".data r ∨ strStarts "/".data r

/-- `ntpath.abspath` with an explicit working directory (pure-Python fallback
semantics: join with the cwd when relative, then `normpath`; drive-relative
paths are not modelled). -/
def ntAbspath (cwd p : Str) : Str :=
  ntNormpath (if ntIsabs p then p else cwd ++ "\\".data ++ p)

/-- `os.path.abspath` dispatched on the platform. -/
def osAbspath : Platform → Str → Str → Str
| .windows, cwd, p => ntAbspath cwd p
| _, cwd, p => posixAbspath cwd p

/-- `os.path.normpath` dispatched on the platform. -/
def osNormpath : Platform → Str → Str
| .windows, p => ntNormpath p
| _, p => posixNormpath p

/-- `os.path.normcase`: lower-case and flip slashes on Windows, identity on
POSIX platforms. -/
def osNormcase : Platform → Str → Str
| .windows, s => strLower (replaceChar '/' '\\' s)
| _, s => s

/-- `normalize_path` from `Config.get_recent_files` (config.py:399-401):
`os.path.normcase(os.path.normpath(os.path.abspath(p))) if p else ''`. -/
def normalize_path (pf : Platform) (cwd p : Str) : Str :=
  if p = [] then [] else osNormcase pf (osNormpath pf (osAbspath pf cwd p))

/-! ## Recent-file / template entries

Python stores recent-file and template entries either as bare path strings or
as small dicts with `path` / `source` / `last_opened` keys
(`Config._get_path_from_entry`, config.py:101-103). -/

/-- The dict form of an entry: `path`, `source`, `last_opened` keys, each
possibly absent. -/
structure EntryDict where
  path : Option Str
  source : Option Str
  last_opened : Option Int
deriving DecidableEq, Repr

/-- A list element of `launcher_recents` / `td_recents` / `templates`:
a bare string or a dict. -/
inductive PyEntry
| str (s : Str)
| dict (d : EntryDict)
deriving DecidableEq, Repr

/-- `Config._get_path_from_entry` (config.py:101-103):
`entry if isinstance(entry, str) else entry.get('path', '')`. -/
def get_path_from_entry : PyEntry → Str
| .str s => s
| .dict d => d.path.getD []

/-- The in-memory configuration fields the recents/templates operations read,
with the `dict.get(key, default)` defaults already applied. -/
structure ConfigState where
  launcher_recents : List PyEntry
  td_recents : List PyEntry
  td_recents_timestamp : Int
  max_recent_files : Int
  templates : List PyEntry
deriving DecidableEq, Repr

/-! ## Native recents sources -/

/-- `Config._read_windows_td_recents` (config.py:105-139) applied to the
registry enumeration: `reg = none` models a failed `OpenKey` (caught, giving
`[]`); `reg = some vals` gives the `(name, value)` pairs in enumeration
order.  Entries are kept when the name starts with `file` and the value is a
non-blank string, keyed by `int(name[4:])` (or 9999 when that fails), sorted
ascending by that index (stably, as Python `list.sort`), and returned as
`{'path': value, 'source': 'td'}` dicts. -/
def regEntryIdx (name : Str) : Int := (pyInt? (name.drop 4)).getD 9999

/-- Stable insertion of `x` after every element `y` with `¬ lt x y`;
`pySortBy lt` below is then Python's stable sort with strict key order `lt`. -/
def pyInsertBy (lt : α → α → Bool) (x : α) : List α → List α
| [] => [x]
| y :: ys => if lt x y then x :: y :: ys else y :: pyInsertBy lt x ys

/-- Python's stable `sorted` given the strict order `lt` on elements. -/
def pySortBy (lt : α → α → Bool) (l : List α) : List α :=
  l.foldl (fun acc x => pyInsertBy lt x acc) []

def read_windows_td_recents : Option (List (Str × Str)) → List PyEntry
| none => []
| some vals =>
  let raw := vals.filterMap (fun nv =>
    if strStarts "file".data nv.1 ∧ nv.2 ≠ [] ∧ strTrim nv.2 ≠ [] then
      some (regEntryIdx nv.1, nv.2)
    else none)
  let sorted := pySortBy (fun a b => a.1 < b.1) raw
  sorted.map (fun iv => .dict ⟨some iv.2, some "td".data, none⟩)

/-- `Config._read_mac_td_recents` (config.py:141-176) applied to the
bookmark-extraction results: `sfl` is the list of
`_extract_path_from_bookmark` outcomes for the `book`-prefixed objects of the
`.sfl4` plist, in file order (`none` = extraction failed or file missing).
Each successfully extracted non-empty path not already collected becomes a
`{'path': path, 'source': 'td'}` dict. -/
def read_mac_td_recents (sfl : List (Option Str)) : List PyEntry :=
  sfl.foldl (fun entries op =>
    match op with
    | some p =>
      if p ≠ [] ∧ p ∉ entries.map get_path_from_entry then
        entries ++ [.dict ⟨some p, some "td".data, none⟩]
      else entries
    | none => entries) []

/-! ## The merge (`Config.get_recent_files`, config.py:366-440) -/

/-- The entry conversion done inside `_append_unique` (config.py:403-413):
a string item becomes `{'path': path, 'last_opened': 0}`, a dict item is kept;
when a `source_tag` is given, the entry's `source` key is set to it. -/
def toDictEntry : PyEntry → EntryDict
| .str s => ⟨some s, none, some 0⟩
| .dict d => d

def convEntry (tag : Option Str) (item : PyEntry) : PyEntry :=
  let e := toDictEntry item
  match tag with
  | some t => .dict { e with source := some t }
  | none => .dict e

/-- One iteration of `_append_unique`'s loop: state is
`(seen_paths, merged_list)`. -/
def appendUniqueStep (pf : Platform) (cwd : Str) (tag : Option Str)
    (st : List Str × List PyEntry) (item : PyEntry) : List Str × List PyEntry :=
  let path := get_path_from_entry item
  let np := normalize_path pf cwd path
  if path ≠ [] ∧ np ∉ st.1 then (np :: st.1, st.2 ++ [convEntry tag item])
  else st

/-- `_append_unique(items, source_tag)` over the mutable
`(seen_paths, merged_list)` state. -/
def append_unique (pf : Platform) (cwd : Str) (tag : Option Str)
    (st : List Str × List PyEntry) (items : List PyEntry) : List Str × List PyEntry :=
  items.foldl (appendUniqueStep pf cwd tag) st

/-- The macOS `td_recents` list of `get_recent_files` (config.py:383-391):
the `.sfl4` entries plus config-stored TOX entries whose raw path is not
among the `.sfl4` paths (the path set is computed once, before the loop). -/
def darwin_td_recents (cfg : ConfigState) (sfl : List (Option Str)) : List PyEntry :=
  let base := read_mac_td_recents sfl
  let sfl_paths := base.map get_path_from_entry
  base ++ cfg.td_recents.filterMap (fun item =>
    let p := get_path_from_entry item
    if p ≠ [] ∧ p ∉ sfl_paths then some (.dict ⟨some p, some "td".data, none⟩)
    else none)

/-- The launcher entries opened after the last TOX sync (config.py:424-429),
in original order, already dict-converted. -/
def darwin_recent_launcher (cfg : ConfigState) : List EntryDict :=
  (cfg.launcher_recents.map toDictEntry).filter
    (fun e => cfg.td_recents_timestamp < e.last_opened.getD 0)

/-- The launcher entries at or before the last TOX sync (config.py:424-429),
in original order, already dict-converted. -/
def darwin_older_launcher (cfg : ConfigState) : List EntryDict :=
  (cfg.launcher_recents.map toDictEntry).filter
    (fun e => ¬ cfg.td_recents_timestamp < e.last_opened.getD 0)

/-- `recent_launcher.sort(key=..., reverse=True)` (config.py:430): stable
descending sort by `last_opened` (default 0). -/
def darwin_recent_sorted (cfg : ConfigState) : List EntryDict :=
  pySortBy (fun a b => b.last_opened.getD 0 < a.last_opened.getD 0)
    (darwin_recent_launcher cfg)

/-- `Config.get_recent_files(merged)` (config.py:366-440).  `reg` is the
Windows registry read, `sfl` the macOS bookmark extraction results (both
ignored on the other platforms), `cwd` the working directory used by
`os.path.abspath`.  Timestamps are integers (see the header). -/
def get_recent_files (pf : Platform) (cwd : Str) (cfg : ConfigState)
    (reg : Option (List (Str × Str))) (sfl : List (Option Str))
    (merged : Bool) : List PyEntry :=
  let launcher_recents := cfg.launcher_recents
  if ¬ merged then launcher_recents
  else
    let td_recents : List PyEntry :=
      match pf with
      | .windows => read_windows_td_recents reg
      | .darwin => darwin_td_recents cfg sfl
      | .linux => cfg.td_recents
    match pf with
    | .darwin =>
      -- config.py:415-434: split launcher entries around the last TOX sync,
      -- newest-first sort of the fresh ones (Python sort is stable).
      let st := append_unique pf cwd none ([], []) ((darwin_recent_sorted cfg).map .dict)
      let st := append_unique pf cwd (some "td".data) st td_recents
      let st := append_unique pf cwd none st ((darwin_older_launcher cfg).map .dict)
      st.2
    | _ =>
      -- config.py:435-438: registry is always fresh, TD recents go first.
      let st := append_unique pf cwd (some "td".data) ([], []) td_recents
      let st := append_unique pf cwd none st launcher_recents
      st.2

/-- The order in which `get_recent_files` feeds (tag, item) pairs through
`_append_unique` on each platform; the dedup result is characterized against
it below. -/
def merge_scan_order (pf : Platform) (cfg : ConfigState)
    (reg : Option (List (Str × Str))) (sfl : List (Option Str)) :
    List (Option Str × PyEntry) :=
  match pf with
  | .windows =>
    (read_windows_td_recents reg).map (fun e => (some "td".data, e)) ++
      cfg.launcher_recents.map (fun e => (none, e))
  | .darwin =>
    (darwin_recent_sorted cfg).map (fun e => (none, .dict e)) ++
      (darwin_td_recents cfg sfl).map (fun e => (some "td".data, e)) ++
      (darwin_older_launcher cfg).map (fun e => (none, .dict e))
  | .linux =>
    cfg.td_recents.map (fun e => (some "td".data, e)) ++
      cfg.launcher_recents.map (fun e => (none, e))

/-- Recursive first-occurrence-wins presentation of `_append_unique`'s loop
over a tagged item sequence; `append_unique` is proved equal to it below, and
its shape makes the dedup discipline (skip an entry whose non-empty
normalized path was already seen, first occurrence wins) manifest. -/
def mergeScan (pf : Platform) (cwd : Str) : List Str → List (Option Str × PyEntry) → List PyEntry
| _, [] => []
| seen, ti :: rest =>
  let p := get_path_from_entry ti.2
  let np := normalize_path pf cwd p
  if p ≠ [] ∧ np ∉ seen then convEntry ti.1 ti.2 :: mergeScan pf cwd (np :: seen) rest
  else mergeScan pf cwd seen rest

/-- The `seen_paths` set after `mergeScan` processes a tagged item sequence. -/
def mergeSeen (pf : Platform) (cwd : Str) : List Str → List (Option Str × PyEntry) → List Str
| seen, [] => seen
| seen, ti :: rest =>
  let p := get_path_from_entry ti.2
  let np := normalize_path pf cwd p
  if p ≠ [] ∧ np ∉ seen then mergeSeen pf cwd (np :: seen) rest
  else mergeSeen pf cwd seen rest

/-- The CLAIM's notion of path equality, modelled from the spec's words
("case-insensitive, slash-normalized, absolute-path comparison"): lower-case
the normalized absolute path and unify separators, on every platform.  Kept
distinct from the code's `normalize_path` for comparison (the code's
`os.path.normcase` is the identity on POSIX platforms). -/
def claim_normalize (pf : Platform) (cwd p : Str) : Str :=
  strLower (replaceChar '/' '\\' (osNormpath pf (osAbspath pf cwd p)))

/-! ## Launcher-history mutation (`Config.add_recent_file`, config.py:270-290) -/

/-- `Config.add_recent_file(file_path)`: removal of an existing entry compares
`_get_path_from_entry(rf)` with `os.path.abspath(file_path)` by plain string
equality (config.py:277) — no `normpath`/`normcase`.  `now` models
`time.time()`. -/
def add_recent_file (pf : Platform) (cwd : Str) (cfg : ConfigState)
    (file_path : Str) (now : Int) : ConfigState :=
  let abs_path := osAbspath pf cwd file_path
  let recent_files := cfg.launcher_recents.filter
    (fun rf => get_path_from_entry rf ≠ abs_path)
  let entry : PyEntry := .dict ⟨some abs_path, some "launcher".data, some now⟩
  let recent_files := entry :: recent_files
  { cfg with launcher_recents := pyTake cfg.max_recent_files recent_files }

/-! ## Template reordering (`Config.move_template_up/down`, config.py:484-536) -/

/-- The index search loop shared by both move operations: first index whose
`_get_path_from_entry` equals `abs_path`. -/
def findTemplateIdx (templates : List PyEntry) (abs_path : Str) : Option Nat :=
  templates.findIdx? (fun t => get_path_from_entry t = abs_path)

/-- `Config.move_template_up(file_path)`: returns the success flag and the
new templates list.  Index 0 wraps to the bottom (`pop(0)` + `append`);
otherwise the element is swapped with its predecessor. -/
def move_template_up (pf : Platform) (cwd : Str) (templates : List PyEntry)
    (file_path : Str) : Bool × List PyEntry :=
  let abs_path := osAbspath pf cwd file_path
  match findTemplateIdx templates abs_path with
  | none => (false, templates)
  | some idx =>
    if idx = 0 then
      match templates with
      | [] => (true, [])
      | t0 :: rest => (true, rest ++ [t0])
    else
      (true, (templates.set idx (templates.getD (idx - 1) (.str []))).set (idx - 1)
        (templates.getD idx (.str [])))

/-- `Config.move_template_down(file_path)`: the last index (and any `idx ≥
len - 1`) wraps to the top (`pop(idx)` + `insert(0)`); otherwise the element
is swapped with its successor. -/
def move_template_down (pf : Platform) (cwd : Str) (templates : List PyEntry)
    (file_path : Str) : Bool × List PyEntry :=
  let abs_path := osAbspath pf cwd file_path
  match findTemplateIdx templates abs_path with
  | none => (false, templates)
  | some idx =>
    if templates.length - 1 ≤ idx then
      (true, templates.getD idx (.str []) :: templates.eraseIdx idx)
    else
      (true, (templates.set idx (templates.getD (idx + 1) (.str []))).set (idx + 1)
        (templates.getD idx (.str [])))

/-! ## JSON documents and `Config.load` (config.py:55-72)

`Config.load` works on the raw parsed JSON document before the typed
`ConfigState` view above applies, so it gets its own JSON value model. -/

/-- A parsed JSON value. -/
inductive J
| num (n : Int)
| str (s : Str)
| jbool (b : Bool)
| arr (l : List J)
| obj (l : List (Str × J))

/-- First-match lookup in an association-list dict. -/
def dictGet (d : List (Str × J)) (k : Str) : Option J :=
  (d.find? (fun kv => kv.1 = k)).map (·.2)

/-- Python dict assignment `d[k] = v`: updates in place if the key exists,
otherwise appends (insertion order). -/
def dictSet (d : List (Str × J)) (k : Str) (v : J) : List (Str × J) :=
  if (d.find? (fun kv => kv.1 = k)).isSome then
    d.map (fun kv => if kv.1 = k then (k, v) else kv)
  else d ++ [(k, v)]

/-- `json.load`'s duplicate-key handling for a JSON object: keys are inserted
in order, a repeated key overwrites the value in place. -/
def objToDict (l : List (Str × J)) : List (Str × J) :=
  l.foldl (fun d kv => dictSet d kv.1 kv.2) []

/-- Python `{**a, **b}`: `a`'s keys in order with `b`'s overrides, then `b`'s
new keys in order. -/
def dictMerge (a b : List (Str × J)) : List (Str × J) :=
  a.map (fun kv => (kv.1, (dictGet b kv.1).getD kv.2)) ++
    b.filter (fun kv => (dictGet a kv.1).isNone)

/-- `DEFAULT_CONFIG` (config.py:14-24). -/
def DEFAULT_CONFIG : List (Str × J) :=
  [("version".data, .num 1),
   ("recent_files".data, .arr []),
   ("templates".data, .arr []),
   ("max_recent_files".data, .num 33),
   ("confirm_remove_from_list".data, .jbool true),
   ("show_icons".data, .jbool false),
   ("show_readme".data, .jbool false),
   ("show_full_history".data, .jbool true),
   ("has_prompted_file_assoc".data, .jbool false)]

/-- The migration step of `Config.load` (config.py:62-64):
`if 'recent_files' in loaded and 'launcher_recents' not in loaded:
loaded['launcher_recents'] = loaded.pop('recent_files')`. -/
def migrate (d : List (Str × J)) : List (Str × J) :=
  match dictGet d "recent_files".data, dictGet d "launcher_recents".data with
  | some v, none =>
    dictSet (d.filter (fun kv => kv.1 ≠ "recent_files".data)) "launcher_recents".data v
  | _, _ => d

/-- The possible outcomes of opening and JSON-parsing the config file:
the file is absent, reading raises `IOError`, parsing raises
`json.JSONDecodeError` (`content none`), or parsing yields a value. -/
inductive FileRead
| missing
| ioError
| content (parsed : Option J)

/-- `Config.load` (config.py:55-72).  Only `json.JSONDecodeError` and
`IOError` are caught.  When the parsed top-level value is not an object,
the subsequent dict operations raise an uncaught error
(`'recent_files' in loaded` raises `TypeError` for a number/bool top level;
for a list or string top level, either `loaded.pop('recent_files')` raises
`TypeError`/`AttributeError` or `{**DEFAULT_CONFIG, **loaded}` raises
`TypeError: argument of type ... is not a mapping` — every non-object branch
raises before returning), modelled as `.error`. -/
def loadConfig : FileRead → Except Str (List (Str × J))
| .missing => .ok DEFAULT_CONFIG
| .ioError => .ok DEFAULT_CONFIG
| .content none => .ok DEFAULT_CONFIG
| .content (some (.obj o)) => .ok (dictMerge DEFAULT_CONFIG (migrate (objToDict o)))
| .content (some _) => .error "TypeError".data

/-! ## Version parsing (`TDManager.parse_version_string`, td_manager.py:165-182) -/

/-- The product-prefix strip: the first matching prefix of
`('TouchDesigner.', 'TouchPlayer.')` is removed. -/
def stripProductPrefix (s : Str) : Str :=
  if strStarts "TouchDesigner.".data s then s.drop "TouchDesigner.".data.length
  else if strStarts "TouchPlayer.".data s then s.drop "TouchPlayer.".data.length
  else s

/-- `TDManager.parse_version_string`: split the stripped string on `'.'`,
`int()` the first two segments (the second defaults to `-1` when absent);
any `int()` failure inside the `try` yields the `(-1, -1)` sentinel. -/
def parse_version_string (s : Str) : Int × Int :=
  let parts := splitOnChar '.' (stripProductPrefix s)
  match pyInt? (parts.getD 0 []) with
  | none => (-1, -1)
  | some year =>
    if 1 < parts.length then
      match pyInt? (parts.getD 1 []) with
      | none => (-1, -1)
      | some build => (year, build)
    else (year, -1)

/-- Python tuple comparison `a < b` on `(year, build)` pairs (lexicographic). -/
def tupLt (a b : Int × Int) : Bool := a.1 < b.1 ∨ (a.1 = b.1 ∧ a.2 < b.2)

/-- Python tuple comparison `a <= b` on `(year, build)` pairs. -/
def tupLe (a b : Int × Int) : Bool := a.1 < b.1 ∨ (a.1 = b.1 ∧ a.2 ≤ b.2)

/-- `TDManager.get_sorted_version_keys` (td_manager.py:186-188) applied to a
given key list: `sorted(keys, key=parse_version_string)` (Python's stable
sort under the lexicographic tuple order). -/
def get_sorted_version_keys (keys : List Str) : List Str :=
  pySortBy (fun a b => tupLt (parse_version_string a) (parse_version_string b)) keys

/-! ## .toe inspection (`TDManager.inspect_toe_file`, td_manager.py:249-320) -/

/-- The outcome of the `toeexpand` subprocess call: the `Popen`/`communicate`
machinery raised (caught by the blanket `except Exception`), or the process
completed with an exit code and a stdout that did or did not decode as UTF-8
(a decode failure raises inside the same `try` and is likewise caught). -/
inductive SubprocOutcome
| raises
| completed (returncode : Int) (stdoutUtf8 : Option Str)

/-- `TDManager.inspect_toe_file(file_path)`: `fileExists` models
`os.path.exists(file_path)`, `hasToeexpand` whether `get_toeexpand_path`
found a tool.  The exit code is logged but never branches the result
(td_manager.py:293-294).  Carriage returns are stripped, lines are stripped
and blank lines dropped; fewer than two surviving lines (or trivially short
output) is a failure; otherwise the result is `'TouchDesigner.'` plus the
last space-separated token of the second line. -/
def inspect_toe_file (fileExists hasToeexpand : Bool) (outcome : SubprocOutcome) :
    Option Str :=
  if ¬ fileExists then none
  else if ¬ hasToeexpand then none
  else
    match outcome with
    | .raises => none
    | .completed _ none => none
    | .completed _ (some out) =>
      let build_info := dropCharAll '\r' out
      if build_info = [] ∨ (strTrim build_info).length < 5 then none
      else
        let info_split := ((splitOnChar '\n' build_info).map strTrim).filter (· ≠ [])
        if info_split.length < 2 then none
        else
          let version_line := info_split.getD 1 []
          let version_number := ((splitOnChar ' ' version_line).getLast?).getD []
          some ("TouchDesigner.".data ++ version_number)

/-! ## Download URL (`TDManager.generate_download_url`, td_manager.py:322-361) -/

/-- `machine` models `platform.machine()` on the Mac branch. -/
def generate_download_url (pf : Platform) (machine : Str) (build_option : Str) :
    Option Str :=
  let split_options := splitOnChar '.' build_option
  if split_options.length < 3 then none
  else
    let product := split_options.getD 0 []
    let year := split_options.getD 1 []
    let build := split_options.getD 2 []
    let ext : Str := if pf = .windows then ".exe".data else ".dmg".data
    let arch : Str :=
      if pf = .windows then []
      else
        let m := strLower machine
        if m = "arm64".data ∨ m = "aarch64".data then ".arm64".data
        else ".intel".data
    if (year = "2017".data ∨ year = "2018".data) ∧ pf = .windows then
      some ("https://download.derivative.ca/TouchDesigner099.".data ++ year ++
        ".".data ++ build ++ ".64-Bit".data ++ ext)
    else if year = "2019".data ∧ pf = .windows then
      some ("https://download.derivative.ca/TouchDesigner099.".data ++ year ++
        ".".data ++ build ++ ext)
    else
      let url_product : Str :=
        if product = "TouchPlayer".data ∧ pf ≠ .windows then "TouchPlayer".data
        else "TouchDesigner".data
      some ("https://download.derivative.ca/".data ++ url_product ++ ".".data ++
        year ++ ".".data ++ build ++ arch ++ ext)

/-! ## Closest-version fallback (`LauncherApp._update_version_panel`,
td_launcher.py:1264-1284) -/

/-- The fallback loop (td_launcher.py:1278-1284): walk the ascending key list
keeping the last key whose parsed tuple is `<=` the target, stopping at the
first key that exceeds it. -/
def fallback_scan (target : Int × Int) : List Str → Str → Str
| [], d => d
| k :: rest, d =>
  if tupLe (parse_version_string k) target then fallback_scan target rest k
  else d

/-- The `default_version` computation (td_launcher.py:1267-1284): `none` when
nothing is installed; the exact key when installed; otherwise the fallback
scan starting from the oldest installed key. -/
def compute_default_version (version_keys : List Str) (build_info : Str) : Option Str :=
  match version_keys with
  | [] => none
  | k0 :: _ =>
    if build_info ∈ version_keys then some build_info
    else some (fallback_scan (parse_version_string build_info) version_keys k0)

/-! ## dirname/join (used by the analysis worker's `td_uri`) -/

/-- Split after the last separator occurrence: `(head-with-separator, tail)`. -/
def lastSepSplit (seps : List Char) (p : Str) : Str × Str :=
  let r := p.reverse
  ((r.dropWhile (· ∉ seps)).reverse, (r.takeWhile (· ∉ seps)).reverse)

/-- `posixpath.dirname`. -/
def posixDirname (p : Str) : Str :=
  let head := (lastSepSplit ['/'] p).1
  if head ≠ [] ∧ ¬ head.all (· = '/') then (head.reverse.dropWhile (· = '/')).reverse
  else head

/-- `ntpath.dirname` (drive-letter form; UNC not modelled). -/
def ntDirname (p : Str) : Str :=
  let (drive, rest) := ntSplitdrive p
  let head := (lastSepSplit ['\\', '/'] rest).1
  let head :=
    if head ≠ [] ∧ ¬ head.all (fun c => c = '\\' ∨ c = '/') then
      (head.reverse.dropWhile (fun c => c = '\\' ∨ c = '/')).reverse
    else head
  drive ++ head

def osDirname : Platform → Str → Str
| .windows, p => ntDirname p
| _, p => posixDirname p

/-- `ntpath.join` for two arguments (second argument without a drive;
drive-relative forms not modelled). -/
def ntJoin (a b : Str) : Str :=
  if ntIsabs b then b
  else if a = [] ∨ strEnds "\\".data a ∨ strEnds "/".data a then a ++ b
  else a ++ "\\".data ++ b

def osJoin : Platform → Str → Str → Str
| .windows, a, b => ntJoin a b
| _, a, b => posixJoin a b

/-! ## The per-session analysis cache (`LauncherApp._analyze_toe_file`,
td_launcher.py:256-323)

The threaded worker is modelled as two sequential steps: the request step
(cache check, id bump, thread spawn) and the completion step (the worker's
body after `inspect_toe_file` returns, guarded by the analysis id). -/

/-- One `version_cache` record (td_launcher.py:307-313). -/
structure CacheEntry where
  build_info : Option Str
  build_year : Option Int
  td_url : Option Str
  td_uri : Option Str
  td_filename : Option Str
deriving DecidableEq, Repr

/-- Generic association-list store with Python dict assignment semantics. -/
def assocSet (d : List (Str × β)) (k : Str) (v : β) : List (Str × β) :=
  if (d.find? (fun kv => kv.1 = k)).isSome then
    d.map (fun kv => if kv.1 = k then (k, v) else kv)
  else d ++ [(k, v)]

def assocGet (d : List (Str × β)) (k : Str) : Option β :=
  (d.find? (fun kv => kv.1 = k)).map (·.2)

/-- The `LauncherApp` fields touched by `_analyze_toe_file` and its worker. -/
structure AnalyzerState where
  version_cache : List (Str × CacheEntry)
  current_analysis_id : Nat
  build_info : Option Str
  build_year : Option Int
  td_url : Option Str
  td_uri : Option Str
  td_filename : Option Str
  analysis_status : Str
deriving DecidableEq, Repr

/-- `LauncherApp._analyze_toe_file(file_path)` up to (and excluding) the
worker body: on a cache hit the cached fields are applied and the status set
to ready, with no thread started (`none`); on a miss the analysis id is
bumped, the status set to loading, and a worker is started for
`(file_path, analysis_id)` (`some`) — the returned pair is the exact argument
tuple handed to the thread, and starting it is the only way the external
inspection tool gets invoked. -/
def analyze_toe_file (pf : Platform) (cwd : Str) (st : AnalyzerState)
    (file_path : Str) : AnalyzerState × Option (Str × Nat) :=
  let abs_path := osAbspath pf cwd file_path
  match assocGet st.version_cache abs_path with
  | some cached =>
    ({ st with
        build_info := cached.build_info
        build_year := cached.build_year
        td_url := cached.td_url
        td_uri := cached.td_uri
        td_filename := cached.td_filename
        analysis_status := "ready_for_ui".data }, none)
  | none =>
    ({ st with
        current_analysis_id := st.current_analysis_id + 1
        analysis_status := "loading".data },
     some (file_path, st.current_analysis_id + 1))

/-- The worker body (td_launcher.py:276-319) after `inspect_toe_file`
returned `inspected`, applied at completion time to the then-current state:
a stale worker (`aid ≠ current_analysis_id`) changes nothing; the live worker
derives year/url/uri/filename, stores a cache record under the absolute path
— also when `inspected` is `none` — and flips the status to ready. -/
def analysis_worker_complete (pf : Platform) (machine cwd : Str)
    (st : AnalyzerState) (path : Str) (aid : Nat) (inspected : Option Str) :
    AnalyzerState :=
  if aid = st.current_analysis_id then
    let build_info := inspected
    let build_year : Option Int :=
      match build_info with
      | some bi =>
        let parts := splitOnChar '.' bi
        if 1 < parts.length then pyInt? (parts.getD 1 []) else none
      | none => none
    let td_url : Option Str :=
      match build_info with
      | some bi => generate_download_url pf machine bi
      | none => none
    let td_filename := td_url.map (fun u => ((splitOnChar '/' u).getLast?).getD [])
    let td_uri : Option Str :=
      match td_url, td_filename with
      | some _, some fn =>
        some (osJoin pf (osDirname pf (osAbspath pf cwd path)) fn)
      | _, _ => none
    let abs_path := osAbspath pf cwd path
    { st with
        build_info := build_info
        build_year := build_year
        td_url := td_url
        td_uri := td_uri
        td_filename := td_filename
        version_cache := assocSet st.version_cache abs_path
          ⟨build_info, build_year, td_url, td_uri, td_filename⟩
        analysis_status := "ready_for_ui".data }
  else st

/-! ## Properties of the dedup fold -/

theorem convEntry_path (tag : Option Str) (it : PyEntry) :
    get_path_from_entry (convEntry tag it) = get_path_from_entry it := by
  cases it <;> cases tag <;> simp [convEntry, toDictEntry, get_path_from_entry]

theorem append_unique_eq (pf : Platform) (cwd : Str) (tag : Option Str)
    (items : List PyEntry) : ∀ (seen : List Str) (acc : List PyEntry),
    append_unique pf cwd tag (seen, acc) items
      = (mergeSeen pf cwd seen (items.map (fun it => (tag, it))),
         acc ++ mergeScan pf cwd seen (items.map (fun it => (tag, it)))) := by
  induction items with
  | nil => intro seen acc; simp [append_unique, mergeSeen, mergeScan]
  | cons it rest ih =>
    intro seen acc
    simp only [append_unique, List.foldl_cons, List.map_cons] at ih ⊢
    by_cases h : get_path_from_entry it ≠ [] ∧
        normalize_path pf cwd (get_path_from_entry it) ∉ seen
    · rw [show appendUniqueStep pf cwd tag (seen, acc) it
          = (normalize_path pf cwd (get_path_from_entry it) :: seen,
             acc ++ [convEntry tag it]) from by
        simp [appendUniqueStep, h]]
      rw [ih]
      simp [mergeScan, mergeSeen, h]
    · rw [show appendUniqueStep pf cwd tag (seen, acc) it = (seen, acc) from by
        simp only [appendUniqueStep]; rw [if_neg h]]
      rw [ih]
      simp only [mergeScan, mergeSeen]
      rw [if_neg h, if_neg h]

theorem mergeScan_append (pf : Platform) (cwd : Str)
    (l₁ l₂ : List (Option Str × PyEntry)) : ∀ seen,
    mergeScan pf cwd seen (l₁ ++ l₂)
      = mergeScan pf cwd seen l₁ ++ mergeScan pf cwd (mergeSeen pf cwd seen l₁) l₂ := by
  induction l₁ with
  | nil => intro seen; simp [mergeScan, mergeSeen]
  | cons ti rest ih =>
    intro seen
    simp only [List.cons_append, mergeScan, mergeSeen, List.append_eq]
    by_cases h : get_path_from_entry ti.2 ≠ [] ∧
        normalize_path pf cwd (get_path_from_entry ti.2) ∉ seen
    · rw [if_pos h, if_pos h, if_pos h, ih, List.cons_append]
    · rw [if_neg h, if_neg h, if_neg h, ih]

theorem mem_mergeScan_provenance (pf : Platform) (cwd : Str)
    (l : List (Option Str × PyEntry)) : ∀ seen e, e ∈ mergeScan pf cwd seen l →
    ∃ ti ∈ l, e = convEntry ti.1 ti.2 := by
  induction l with
  | nil => intro seen e he; simp [mergeScan] at he
  | cons ti rest ih =>
    intro seen e he
    simp only [mergeScan] at he
    by_cases h : get_path_from_entry ti.2 ≠ [] ∧
        normalize_path pf cwd (get_path_from_entry ti.2) ∉ seen
    · rw [if_pos h] at he
      rcases List.mem_cons.mp he with h1 | h2
      · exact ⟨ti, List.mem_cons_self .., h1⟩
      · obtain ⟨ti', hti', he'⟩ := ih _ _ h2
        exact ⟨ti', List.mem_cons_of_mem _ hti', he'⟩
    · rw [if_neg h] at he
      obtain ⟨ti', hti', he'⟩ := ih _ _ he
      exact ⟨ti', List.mem_cons_of_mem _ hti', he'⟩

theorem mem_mergeScan_not_seen (pf : Platform) (cwd : Str)
    (l : List (Option Str × PyEntry)) : ∀ seen e, e ∈ mergeScan pf cwd seen l →
    normalize_path pf cwd (get_path_from_entry e) ∉ seen := by
  induction l with
  | nil => intro seen e he; simp [mergeScan] at he
  | cons ti rest ih =>
    intro seen e he
    simp only [mergeScan] at he
    by_cases h : get_path_from_entry ti.2 ≠ [] ∧
        normalize_path pf cwd (get_path_from_entry ti.2) ∉ seen
    · rw [if_pos h] at he
      rcases List.mem_cons.mp he with h1 | h2
      · rw [h1, convEntry_path]; exact h.2
      · have := ih _ _ h2
        intro hmem
        exact this (List.mem_cons_of_mem _ hmem)
    · rw [if_neg h] at he
      exact ih _ _ he

theorem mergeScan_pairwise (pf : Platform) (cwd : Str)
    (l : List (Option Str × PyEntry)) : ∀ seen,
    List.Pairwise (fun a b =>
        normalize_path pf cwd (get_path_from_entry a)
          ≠ normalize_path pf cwd (get_path_from_entry b))
      (mergeScan pf cwd seen l) := by
  induction l with
  | nil => intro seen; simp [mergeScan]
  | cons ti rest ih =>
    intro seen
    simp only [mergeScan]
    by_cases h : get_path_from_entry ti.2 ≠ [] ∧
        normalize_path pf cwd (get_path_from_entry ti.2) ∉ seen
    · rw [if_pos h]
      refine List.Pairwise.cons ?_ (ih _)
      intro b hb heq
      have hni := mem_mergeScan_not_seen pf cwd rest _ b hb
      rw [convEntry_path] at heq
      exact hni (heq ▸ List.mem_cons_self ..)
    · rw [if_neg h]
      exact ih _

theorem mergeScan_complete (pf : Platform) (cwd : Str)
    (l : List (Option Str × PyEntry)) : ∀ seen ti, ti ∈ l →
    get_path_from_entry ti.2 ≠ [] →
    normalize_path pf cwd (get_path_from_entry ti.2) ∉ seen →
    ∃ e ∈ mergeScan pf cwd seen l,
      normalize_path pf cwd (get_path_from_entry e)
        = normalize_path pf cwd (get_path_from_entry ti.2) := by
  induction l with
  | nil => intro seen ti hti; simp at hti
  | cons hd rest ih =>
    intro seen ti hti hp hns
    simp only [mergeScan]
    by_cases h : get_path_from_entry hd.2 ≠ [] ∧
        normalize_path pf cwd (get_path_from_entry hd.2) ∉ seen
    · rw [if_pos h]
      rcases List.mem_cons.mp hti with h1 | h2
      · subst h1
        exact ⟨convEntry ti.1 ti.2, List.mem_cons_self .., by rw [convEntry_path]⟩
      · by_cases hsame : normalize_path pf cwd (get_path_from_entry ti.2)
            = normalize_path pf cwd (get_path_from_entry hd.2)
        · exact ⟨convEntry hd.1 hd.2, List.mem_cons_self ..,
            by rw [convEntry_path, hsame]⟩
        · have hns' : normalize_path pf cwd (get_path_from_entry ti.2)
              ∉ normalize_path pf cwd (get_path_from_entry hd.2) :: seen := by
            intro hmem
            rcases List.mem_cons.mp hmem with he | he
            · exact hsame he
            · exact hns he
          obtain ⟨e, he, heq⟩ := ih _ ti h2 hp hns'
          exact ⟨e, List.mem_cons_of_mem _ he, heq⟩
    · rw [if_neg h]
      rcases List.mem_cons.mp hti with h1 | h2
      · subst h1
        exact absurd ⟨hp, hns⟩ h
      · exact ih _ ti h2 hp hns

theorem get_recent_files_eq_mergeScan (pf : Platform) (cwd : Str)
    (cfg : ConfigState) (reg : Option (List (Str × Str)))
    (sfl : List (Option Str)) :
    get_recent_files pf cwd cfg reg sfl true
      = mergeScan pf cwd [] (merge_scan_order pf cfg reg sfl) := by
  cases pf with
  | windows =>
    simp only [get_recent_files, merge_scan_order]
    rw [append_unique_eq, append_unique_eq]
    simp [mergeScan_append]
  | darwin =>
    simp only [get_recent_files, merge_scan_order]
    rw [append_unique_eq, append_unique_eq, append_unique_eq]
    simp only [List.nil_append, List.append_assoc]
    rw [mergeScan_append, mergeScan_append]
    simp [List.map_map, Function.comp_def]
  | linux =>
    simp only [get_recent_files, merge_scan_order]
    rw [append_unique_eq, append_unique_eq]
    simp [mergeScan_append]

/-! ## Order facts for the (year, build) tuples -/

theorem tupLe_refl (a : Int × Int) : tupLe a a = true := by simp [tupLe]

theorem tupLe_trans {a b c : Int × Int} (h1 : tupLe a b = true)
    (h2 : tupLe b c = true) : tupLe a c = true := by
  rcases a with ⟨a1, a2⟩
  rcases b with ⟨b1, b2⟩
  rcases c with ⟨c1, c2⟩
  simp only [tupLe, decide_eq_true_eq] at *
  omega

theorem tupLe_of_not_tupLt {a b : Int × Int} (h : ¬ tupLt a b = true) :
    tupLe b a = true := by
  rcases a with ⟨a1, a2⟩
  rcases b with ⟨b1, b2⟩
  simp only [tupLt, tupLe, decide_eq_true_eq] at *
  omega

theorem tupLe_of_tupLt {a b : Int × Int} (h : tupLt a b = true) :
    tupLe a b = true := by
  rcases a with ⟨a1, a2⟩
  rcases b with ⟨b1, b2⟩
  simp only [tupLt, tupLe, decide_eq_true_eq] at *
  omega

theorem tupLt_of_tupLe_ne {a b : Int × Int} (h1 : tupLe a b = true)
    (h2 : a ≠ b) : tupLt a b = true := by
  rcases a with ⟨a1, a2⟩
  rcases b with ⟨b1, b2⟩
  simp only [tupLt, tupLe, decide_eq_true_eq] at *
  rcases h1 with h | ⟨he, hle⟩
  · exact Or.inl h
  · exact Or.inr ⟨he, lt_of_le_of_ne hle (fun h22 => h2 (by rw [he, h22]))⟩

/-! ## Properties of the fallback scan (C6) -/

theorem fallback_scan_mem (t : Int × Int) :
    ∀ (keys : List Str) (d : Str),
    fallback_scan t keys d = d ∨ fallback_scan t keys d ∈ keys := by
  intro keys
  induction keys with
  | nil => intro d; left; rfl
  | cons k rest ih =>
    intro d
    simp only [fallback_scan]
    by_cases h : tupLe (parse_version_string k) t = true
    · rw [if_pos h]
      rcases ih k with h1 | h1
      · right; rw [h1]; exact List.mem_cons_self ..
      · right; exact List.mem_cons_of_mem _ h1
    · rw [if_neg h]; left; rfl

theorem fallback_scan_le (t : Int × Int) :
    ∀ (keys : List Str) (d : Str),
    tupLe (parse_version_string d) t = true →
    tupLe (parse_version_string (fallback_scan t keys d)) t = true := by
  intro keys
  induction keys with
  | nil => intro d hd; exact hd
  | cons k rest ih =>
    intro d hd
    simp only [fallback_scan]
    by_cases h : tupLe (parse_version_string k) t = true
    · rw [if_pos h]; exact ih k h
    · rw [if_neg h]; exact hd

theorem fallback_scan_nosat (t : Int × Int) :
    ∀ (keys : List Str) (d : Str),
    (∀ k ∈ keys, ¬ tupLe (parse_version_string k) t = true) →
    fallback_scan t keys d = d := by
  intro keys
  induction keys with
  | nil => intro d _; rfl
  | cons k rest ih =>
    intro d hno
    simp only [fallback_scan]
    rw [if_neg (hno k (List.mem_cons_self ..))]

theorem fallback_scan_default_le (t : Int × Int) :
    ∀ (keys : List Str) (d : Str),
    (∀ k ∈ keys, tupLe (parse_version_string d) (parse_version_string k) = true) →
    tupLe (parse_version_string d)
      (parse_version_string (fallback_scan t keys d)) = true := by
  intro keys d hall
  rcases fallback_scan_mem t keys d with h | h
  · rw [h]; exact tupLe_refl _
  · exact hall _ h

theorem fallback_scan_max (t : Int × Int) :
    ∀ (keys : List Str),
    List.Pairwise (fun a b =>
      tupLe (parse_version_string a) (parse_version_string b) = true) keys →
    ∀ (d : Str) (k : Str), k ∈ keys → tupLe (parse_version_string k) t = true →
    tupLe (parse_version_string k)
      (parse_version_string (fallback_scan t keys d)) = true := by
  intro keys
  induction keys with
  | nil => intro _ d k hk; simp at hk
  | cons k0 rest ih =>
    intro hp d k hk hkt
    have hhead := (List.pairwise_cons.mp hp).1
    have hrest := (List.pairwise_cons.mp hp).2
    simp only [fallback_scan]
    by_cases h : tupLe (parse_version_string k0) t = true
    · rw [if_pos h]
      rcases List.mem_cons.mp hk with h1 | h1
      · subst h1
        exact fallback_scan_default_le t rest k hhead
      · exact ih hrest k0 k h1 hkt
    · rw [if_neg h]
      rcases List.mem_cons.mp hk with h1 | h1
      · subst h1; exact absurd hkt h
      · exact absurd (tupLe_trans (hhead k h1) hkt) h

/-! ## Properties of the stable insertion sort (C7) -/

theorem pyInsertBy_perm (lt : α → α → Bool) (x : α) :
    ∀ l : List α, (pyInsertBy lt x l).Perm (x :: l) := by
  intro l
  induction l with
  | nil => simp [pyInsertBy]
  | cons y ys ih =>
    simp only [pyInsertBy]
    by_cases h : lt x y = true
    · rw [if_pos h]
    · rw [if_neg h]
      exact (ih.cons y).trans (List.Perm.swap x y ys)

theorem pySortBy_foldl_perm (lt : α → α → Bool) :
    ∀ (l acc : List α),
    (l.foldl (fun acc x => pyInsertBy lt x acc) acc).Perm (acc ++ l) := by
  intro l
  induction l with
  | nil => intro acc; simp
  | cons x xs ih =>
    intro acc
    simp only [List.foldl_cons]
    refine (ih (pyInsertBy lt x acc)).trans ?_
    refine ((pyInsertBy_perm lt x acc).append_right xs).trans ?_
    simp only [List.cons_append]
    exact List.perm_middle.symm

theorem pySortBy_perm (lt : α → α → Bool) (l : List α) :
    (pySortBy lt l).Perm l := by
  have := pySortBy_foldl_perm lt l []
  simpa [pySortBy] using this

theorem pyInsertBy_sorted_version (x : Str) :
    ∀ l : List Str,
    List.Pairwise (fun a b =>
      tupLe (parse_version_string a) (parse_version_string b) = true) l →
    List.Pairwise (fun a b =>
      tupLe (parse_version_string a) (parse_version_string b) = true)
      (pyInsertBy (fun a b =>
        tupLt (parse_version_string a) (parse_version_string b)) x l) := by
  intro l
  induction l with
  | nil => intro _; simp [pyInsertBy]
  | cons y ys ih =>
    intro hp
    have hy := (List.pairwise_cons.mp hp).1
    have hys := (List.pairwise_cons.mp hp).2
    simp only [pyInsertBy]
    by_cases h : tupLt (parse_version_string x) (parse_version_string y) = true
    · rw [if_pos h]
      refine List.pairwise_cons.mpr ⟨?_, hp⟩
      intro b hb
      rcases List.mem_cons.mp hb with h1 | h1
      · subst h1; exact tupLe_of_tupLt h
      · exact tupLe_trans (tupLe_of_tupLt h) (hy b h1)
    · rw [if_neg h]
      refine List.pairwise_cons.mpr ⟨?_, ih hys⟩
      intro b hb
      have hb' := (pyInsertBy_perm _ x ys).mem_iff.mp hb
      rcases List.mem_cons.mp hb' with h1 | h1
      · subst h1; exact tupLe_of_not_tupLt h
      · exact hy b h1

theorem get_sorted_version_keys_sorted (keys : List Str) :
    List.Pairwise (fun a b =>
      tupLe (parse_version_string a) (parse_version_string b) = true)
      (get_sorted_version_keys keys) := by
  suffices h : ∀ (l acc : List Str),
      List.Pairwise (fun a b =>
        tupLe (parse_version_string a) (parse_version_string b) = true) acc →
      List.Pairwise (fun a b =>
        tupLe (parse_version_string a) (parse_version_string b) = true)
        (l.foldl (fun acc x => pyInsertBy (fun a b =>
          tupLt (parse_version_string a) (parse_version_string b)) x acc) acc) by
    exact h keys [] (by simp)
  intro l
  induction l with
  | nil => intro acc hacc; exact hacc
  | cons x xs ih =>
    intro acc hacc
    exact ih _ (pyInsertBy_sorted_version x acc hacc)

theorem get_sorted_version_keys_perm (keys : List Str) :
    (get_sorted_version_keys keys).Perm keys :=
  pySortBy_perm _ keys

/-! ## Small list helpers -/

theorem pyTake_cons_of_pos (k : Int) (hk : 1 ≤ k) (x : α) (l : List α) :
    pyTake k (x :: l) = x :: l.take (k.toNat - 1) := by
  have h0 : 0 ≤ k := le_trans (by norm_num) hk
  have h1 : k.toNat = (k.toNat - 1) + 1 := by omega
  simp only [pyTake, if_pos h0]
  rw [h1]
  simp [List.take_succ_cons]

theorem swap_set_adjacent (d : α) :
    ∀ (pre : List α) (x y : α) (suf : List α),
    (((pre ++ x :: y :: suf).set (pre.length + 1)
        ((pre ++ x :: y :: suf).getD pre.length d)).set pre.length
        ((pre ++ x :: y :: suf).getD (pre.length + 1) d))
      = pre ++ y :: x :: suf := by
  intro pre
  induction pre with
  | nil => intro x y suf; rfl
  | cons a pre' ih =>
    intro x y suf
    simp only [List.cons_append, List.length_cons, List.set, List.getD,
      List.getElem?_cons_succ]
    have := ih x y suf
    simp only [List.getD] at this
    exact congrArg (a :: ·) this

theorem getD_append_last (d : α) (t : α) :
    ∀ ini : List α, (ini ++ [t]).getD ini.length d = t := by
  intro ini
  induction ini with
  | nil => simp [List.getD]
  | cons a ini' ih =>
    simp only [List.cons_append, List.length_cons, List.getD,
      List.getElem?_cons_succ]
    simp only [List.getD] at ih
    exact ih

theorem eraseIdx_append_last (t : α) :
    ∀ ini : List α, (ini ++ [t]).eraseIdx ini.length = ini := by
  intro ini
  induction ini with
  | nil => simp
  | cons a ini' ih => simp [List.eraseIdx, ih]

/-! ## Association-store helper (C10) -/

theorem find_map_set (k : Str) (v : β) :
    ∀ d : List (Str × β), (∃ kv ∈ d, kv.1 = k) →
    (d.map (fun kv => if kv.1 = k then (k, v) else kv)).find?
        (fun kv => kv.1 = k) = some (k, v) := by
  intro d
  induction d with
  | nil => rintro ⟨kv, hkv, h⟩; cases hkv
  | cons hd tl ih =>
    intro h
    simp only [List.map_cons]
    by_cases hh : hd.1 = k
    · rw [if_pos hh]
      exact List.find?_cons_of_pos _ (by simp)
    · rw [if_neg hh]
      rw [List.find?_cons_of_neg _ (by simp [hh])]
      refine ih ?_
      rcases h with ⟨kv, hkv, hk⟩
      rcases List.mem_cons.mp hkv with h1 | h1
      · subst h1; exact absurd hk hh
      · exact ⟨kv, h1, hk⟩

theorem assocGet_assocSet_self (d : List (Str × β)) (k : Str) (v : β) :
    assocGet (assocSet d k v) k = some v := by
  by_cases h : (d.find? (fun kv => kv.1 = k)).isSome
  · simp only [assocSet, if_pos h, assocGet]
    obtain ⟨kv0, hmem, hkv0⟩ := List.find?_isSome.mp h
    rw [find_map_set k v d ⟨kv0, hmem, by simpa using hkv0⟩]
    rfl
  · simp only [assocSet, if_neg h]
    simp only [assocGet, List.find?_append]
    have hnone : d.find? (fun kv => kv.1 = k) = none := by
      cases hf : d.find? (fun kv => kv.1 = k)
      · rfl
      · rw [hf] at h; simp at h
    rw [hnone]
    simp

theorem swap_set_adjacent_rev (d : α) :
    ∀ (pre : List α) (x y : α) (suf : List α),
    (((pre ++ x :: y :: suf).set pre.length
        ((pre ++ x :: y :: suf).getD (pre.length + 1) d)).set (pre.length + 1)
        ((pre ++ x :: y :: suf).getD pre.length d))
      = pre ++ y :: x :: suf := by
  intro pre
  induction pre with
  | nil => intro x y suf; rfl
  | cons a pre' ih =>
    intro x y suf
    simp only [List.cons_append, List.length_cons, List.set, List.getD,
      List.getElem?_cons_succ]
    have := ih x y suf
    simp only [List.getD] at this
    exact congrArg (a :: ·) this

/-- C6: for a non-empty installed key list sorted ascending by `(year, build)`
and a required version not among the keys, the default selection is an
installed key whose parsed tuple is maximal among those `<=` the required
tuple; when no key is `<=` the required tuple it is the first (oldest) key.
In particular, `{2021.100, 2022.200, 2023.300}` with required `2022.999`
selects `2022.200`, and with required `2019.1` selects `2021.100`. -/
theorem C6_resolve_best_match :
    (∀ (keys : List Str) (bi : Str), keys ≠ [] →
      List.Pairwise (fun a b =>
        tupLe (parse_version_string a) (parse_version_string b) = true) keys →
      bi ∉ keys →
      ∃ d, compute_default_version keys bi = some d ∧ d ∈ keys ∧
        ((∃ k ∈ keys,
            tupLe (parse_version_string k) (parse_version_string bi) = true) →
          tupLe (parse_version_string d) (parse_version_string bi) = true ∧
          ∀ k ∈ keys,
            tupLe (parse_version_string k) (parse_version_string bi) = true →
            tupLe (parse_version_string k) (parse_version_string d) = true) ∧
        ((∀ k ∈ keys,
            ¬ tupLe (parse_version_string k) (parse_version_string bi) = true) →
          keys.head? = some d))
  ∧ compute_default_version
      ["TouchDesigner.2021.100".data, "TouchDesigner.2022.200".data,
       "TouchDesigner.2023.300".data] "TouchDesigner.2022.999".data
      = some "TouchDesigner.2022.200".data
  ∧ compute_default_version
      ["TouchDesigner.2021.100".data, "TouchDesigner.2022.200".data,
       "TouchDesigner.2023.300".data] "TouchDesigner.2019.1".data
      = some "TouchDesigner.2021.100".data := by
  refine ⟨?_, by decide, by decide⟩
  intro keys bi hne hp hnotmem
  match keys, hne with
  | k0 :: ks, _ =>
    simp only [compute_default_version]
    rw [if_neg hnotmem]
    refine ⟨fallback_scan (parse_version_string bi) (k0 :: ks) k0, rfl, ?_, ?_, ?_⟩
    · rcases fallback_scan_mem (parse_version_string bi) (k0 :: ks) k0 with h | h
      · rw [h]; exact List.mem_cons_self ..
      · exact h
    · rintro ⟨k, hkmem, hkle⟩
      have hk0le : tupLe (parse_version_string k0) (parse_version_string bi) = true := by
        rcases List.mem_cons.mp hkmem with h1 | h1
        · subst h1; exact hkle
        · exact tupLe_trans ((List.pairwise_cons.mp hp).1 k h1) hkle
      exact ⟨fallback_scan_le _ _ k0 hk0le,
        fun k' hk' hk'le => fallback_scan_max _ _ hp k0 k' hk' hk'le⟩
    · intro hall
      rw [fallback_scan_nosat _ _ k0 hall]
      rfl

theorem C6_resolve_best_match_witness :
    ∃ d, compute_default_version
        ["TouchDesigner.2021.100".data, "TouchDesigner.2022.200".data,
         "TouchDesigner.2023.300".data] "TouchDesigner.2022.999".data
        = some d
      ∧ d ∈ ["TouchDesigner.2021.100".data, "TouchDesigner.2022.200".data,
             "TouchDesigner.2023.300".data]
      ∧ ((∃ k ∈ ["TouchDesigner.2021.100".data, "TouchDesigner.2022.200".data,
             "TouchDesigner.2023.300".data],
            tupLe (parse_version_string k)
              (parse_version_string "TouchDesigner.2022.999".data) = true) →
          tupLe (parse_version_string d)
            (parse_version_string "TouchDesigner.2022.999".data) = true ∧
          ∀ k ∈ ["TouchDesigner.2021.100".data, "TouchDesigner.2022.200".data,
             "TouchDesigner.2023.300".data],
            tupLe (parse_version_string k)
              (parse_version_string "TouchDesigner.2022.999".data) = true →
            tupLe (parse_version_string k) (parse_version_string d) = true) ∧
        ((∀ k ∈ ["TouchDesigner.2021.100".data, "TouchDesigner.2022.200".data,
             "TouchDesigner.2023.300".data],
            ¬ tupLe (parse_version_string k)
              (parse_version_string "TouchDesigner.2022.999".data) = true) →
          ["TouchDesigner.2021.100".data, "TouchDesigner.2022.200".data,
           "TouchDesigner.2023.300".data].head? = some d) :=
  C6_resolve_best_match.1
    ["TouchDesigner.2021.100".data, "TouchDesigner.2022.200".data,
     "TouchDesigner.2023.300".data] "TouchDesigner.2022.999".data
    (by decide) (by decide) (by decide)

/-- C7 (amended): `parse_version_string` strips a known product prefix,
splits on `'.'` and parses the first two segments with `int()`, yielding the
`(-1, -1)` sentinel whenever either parse fails; sorting any key list by it
yields ascending `(year, build)` tuples — strictly ascending when the parsed
tuples are pairwise distinct (the original claim's "strictly ascending for
any list" fails for lists with repeated keys) — and no string parsing to the
sentinel ever follows a string with a non-negative year. -/
theorem C7_parse_version_key_ordering :
    (∀ (s : Str) (y b : Int),
      pyInt? ((splitOnChar '.' (stripProductPrefix s)).getD 0 []) = some y →
      1 < (splitOnChar '.' (stripProductPrefix s)).length →
      pyInt? ((splitOnChar '.' (stripProductPrefix s)).getD 1 []) = some b →
      parse_version_string s = (y, b))
  ∧ (∀ s : Str,
      pyInt? ((splitOnChar '.' (stripProductPrefix s)).getD 0 []) = none →
      parse_version_string s = (-1, -1))
  ∧ (∀ s : Str, 1 < (splitOnChar '.' (stripProductPrefix s)).length →
      pyInt? ((splitOnChar '.' (stripProductPrefix s)).getD 1 []) = none →
      parse_version_string s = (-1, -1))
  ∧ (∀ l : List Str, List.Pairwise (fun a b =>
      tupLe (parse_version_string a) (parse_version_string b) = true)
      (get_sorted_version_keys l))
  ∧ (∀ l : List Str, (l.map parse_version_string).Nodup →
      List.Pairwise (fun a b =>
        tupLt (parse_version_string a) (parse_version_string b) = true)
      (get_sorted_version_keys l))
  ∧ (∀ l : List Str, List.Pairwise (fun a b =>
      0 ≤ (parse_version_string a).1 → parse_version_string b ≠ (-1, -1))
      (get_sorted_version_keys l)) := by
  refine ⟨?_, ?_, ?_, get_sorted_version_keys_sorted, ?_, ?_⟩
  · intro s y b h0 hlen h1
    simp only [parse_version_string, h0, if_pos hlen, h1]
  · intro s h0
    simp only [parse_version_string, h0]
  · intro s hlen h1
    cases h0 : pyInt? ((splitOnChar '.' (stripProductPrefix s)).getD 0 []) with
    | none => simp only [parse_version_string, h0]
    | some y => simp only [parse_version_string, h0, if_pos hlen, h1]
  · intro l hnd
    have hsorted := get_sorted_version_keys_sorted l
    have hperm : ((get_sorted_version_keys l).map parse_version_string).Perm
        (l.map parse_version_string) := (get_sorted_version_keys_perm l).map _
    have hnd' : ((get_sorted_version_keys l).map parse_version_string).Nodup :=
      hperm.nodup_iff.mpr hnd
    have hne : List.Pairwise (fun a b =>
        parse_version_string a ≠ parse_version_string b)
        (get_sorted_version_keys l) := List.pairwise_map.mp hnd'
    exact (hsorted.and hne).imp (fun h => tupLt_of_tupLe_ne h.1 h.2)
  · intro l
    refine (get_sorted_version_keys_sorted l).imp ?_
    intro a b hle h0 heq
    rw [heq] at hle
    rcases hpa : parse_version_string a with ⟨y, bd⟩
    rw [hpa] at hle h0
    simp only [tupLe, decide_eq_true_eq] at hle
    simp only at h0
    omega

/-- C7 counterexample: a list of two identical well-formed keys sorts to a
list whose parsed tuples are not strictly ascending, refuting the claim's
"strictly ascending for any list of well-formed strings". -/
theorem C7_counterexample :
    (0 ≤ (parse_version_string "TouchDesigner.2021.100".data).1
      ∧ 0 ≤ (parse_version_string "TouchDesigner.2021.100".data).2)
    ∧ ¬ List.Pairwise (fun a b =>
        tupLt (parse_version_string a) (parse_version_string b) = true)
      (get_sorted_version_keys
        ["TouchDesigner.2021.100".data, "TouchDesigner.2021.100".data]) := by
  decide

theorem C7_parse_version_key_ordering_witness :
    parse_version_string "TouchDesigner.2025.32280".data = (2025, 32280)
    ∧ parse_version_string "garbage".data = (-1, -1)
    ∧ parse_version_string "TouchDesigner.2025.xy".data = (-1, -1)
    ∧ List.Pairwise (fun a b =>
        tupLt (parse_version_string a) (parse_version_string b) = true)
      (get_sorted_version_keys
        ["TouchDesigner.2023.1".data, "bad".data, "TouchDesigner.2021.5".data]) :=
  ⟨C7_parse_version_key_ordering.1 "TouchDesigner.2025.32280".data 2025 32280
      (by decide) (by decide) (by decide),
   C7_parse_version_key_ordering.2.1 "garbage".data (by decide),
   C7_parse_version_key_ordering.2.2.1 "TouchDesigner.2025.xy".data
      (by decide) (by decide),
   C7_parse_version_key_ordering.2.2.2.2.1
      ["TouchDesigner.2023.1".data, "bad".data, "TouchDesigner.2021.5".data]
      (by decide)⟩

/-- C8: `inspect_toe_file` ignores the subprocess exit code — identical
stdout gives identical results under any two exit codes, and the quirky
`exit 1` with well-formed two-line output still yields
`TouchDesigner.2023.34567` — while shape violations (fewer than two
non-empty lines after stripping, undecodable stdout, a raising subprocess
call) all produce `none` rather than an unhandled fault. -/
theorem C8_inspect_exit_code_tolerated :
    (∀ (rc₁ rc₂ : Int) (so : Option Str),
      inspect_toe_file true true (.completed rc₁ so)
        = inspect_toe_file true true (.completed rc₂ so))
  ∧ inspect_toe_file true true
      (.completed 1 (some "header\nTouchDesigner build 2023.34567\n".data))
      = some "TouchDesigner.2023.34567".data
  ∧ (∀ (rc : Int) (s : Str),
      (((splitOnChar '\n' (dropCharAll '\r' s)).map strTrim).filter
        (· ≠ [])).length < 2 →
      inspect_toe_file true true (.completed rc (some s)) = none)
  ∧ (∀ rc : Int, inspect_toe_file true true (.completed rc none) = none)
  ∧ inspect_toe_file true true .raises = none := by
  refine ⟨fun rc₁ rc₂ so => by cases so <;> rfl, by decide, ?_, fun rc => rfl, rfl⟩
  intro rc s h
  show (if dropCharAll '\r' s = [] ∨ (strTrim (dropCharAll '\r' s)).length < 5
      then none
      else
        if (((splitOnChar '\n' (dropCharAll '\r' s)).map strTrim).filter
            (· ≠ [])).length < 2 then none
        else some ("TouchDesigner.".data ++
          (((splitOnChar ' ' ((((splitOnChar '\n' (dropCharAll '\r' s)).map
            strTrim).filter (· ≠ [])).getD 1 [])).getLast?).getD [])))
    = none
  by_cases h5 : dropCharAll '\r' s = [] ∨ (strTrim (dropCharAll '\r' s)).length < 5
  · rw [if_pos h5]
  · rw [if_neg h5, if_pos h]

theorem C8_inspect_exit_code_tolerated_witness :
    inspect_toe_file true true (.completed 7 (some "header\n".data)) = none :=
  C8_inspect_exit_code_tolerated.2.2.1 7 "header\n".data (by decide)

/-- C9: template reordering wraps around — `MoveUp` at index 0 sends the
head to the back, `MoveDown` at the last index sends the last element to the
front, any other index swaps the element with its neighbour only, and both
operations on a singleton list leave it unchanged while reporting success. -/
theorem C9_template_wraparound :
    (∀ (pf : Platform) (cwd : Str) (t0 : PyEntry) (rest : List PyEntry) (p : Str),
      findTemplateIdx (t0 :: rest) (osAbspath pf cwd p) = some 0 →
      move_template_up pf cwd (t0 :: rest) p = (true, rest ++ [t0]))
  ∧ (∀ (pf : Platform) (cwd : Str) (ini : List PyEntry) (t : PyEntry) (p : Str),
      findTemplateIdx (ini ++ [t]) (osAbspath pf cwd p) = some ini.length →
      move_template_down pf cwd (ini ++ [t]) p = (true, t :: ini))
  ∧ (∀ (pf : Platform) (cwd : Str) (pre : List PyEntry) (x y : PyEntry)
        (suf : List PyEntry) (p : Str),
      findTemplateIdx (pre ++ x :: y :: suf) (osAbspath pf cwd p)
        = some (pre.length + 1) →
      move_template_up pf cwd (pre ++ x :: y :: suf) p
        = (true, pre ++ y :: x :: suf))
  ∧ (∀ (pf : Platform) (cwd : Str) (pre : List PyEntry) (x y : PyEntry)
        (suf : List PyEntry) (p : Str),
      findTemplateIdx (pre ++ x :: y :: suf) (osAbspath pf cwd p)
        = some pre.length →
      move_template_down pf cwd (pre ++ x :: y :: suf) p
        = (true, pre ++ y :: x :: suf))
  ∧ (∀ (pf : Platform) (cwd : Str) (t : PyEntry) (p : Str),
      findTemplateIdx [t] (osAbspath pf cwd p) = some 0 →
      move_template_up pf cwd [t] p = (true, [t])
        ∧ move_template_down pf cwd [t] p = (true, [t])) := by
  refine ⟨?_, ?_, ?_, ?_, ?_⟩
  · intro pf cwd t0 rest p hfind
    simp only [move_template_up, hfind]
    rw [if_pos trivial]
  · intro pf cwd ini t p hfind
    simp only [move_template_down, hfind]
    rw [if_pos (by simp)]
    rw [getD_append_last, eraseIdx_append_last]
  · intro pf cwd pre x y suf p hfind
    simp only [move_template_up, hfind]
    rw [if_neg (by omega)]
    rw [show pre.length + 1 - 1 = pre.length from rfl]
    rw [swap_set_adjacent]
  · intro pf cwd pre x y suf p hfind
    simp only [move_template_down, hfind]
    rw [if_neg (by simp [Nat.succ_sub_one])]
    rw [swap_set_adjacent_rev]
  · intro pf cwd t p hfind
    constructor
    · simp only [move_template_up, hfind]
      rw [if_pos trivial]
      rfl
    · simp only [move_template_down, hfind]
      rw [if_pos (by simp)]
      rfl

theorem C9_template_wraparound_witness :
    move_template_up .linux "/".data
      [.str "/a".data, .str "/b".data, .str "/c".data] "/a".data
      = (true, [.str "/b".data, .str "/c".data, .str "/a".data])
    ∧ move_template_down .linux "/".data
      [.str "/a".data, .str "/b".data, .str "/c".data] "/c".data
      = (true, [.str "/c".data, .str "/a".data, .str "/b".data])
    ∧ move_template_up .linux "/".data [.str "/a".data] "/a".data
      = (true, [.str "/a".data])
    ∧ move_template_down .linux "/".data [.str "/a".data] "/a".data
      = (true, [.str "/a".data]) :=
  ⟨C9_template_wraparound.1 .linux "/".data (.str "/a".data)
      [.str "/b".data, .str "/c".data] "/a".data (by decide),
   C9_template_wraparound.2.1 .linux "/".data
      [.str "/a".data, .str "/b".data] (.str "/c".data) "/c".data (by decide),
   (C9_template_wraparound.2.2.2.2 .linux "/".data (.str "/a".data)
      "/a".data (by decide)).1,
   (C9_template_wraparound.2.2.2.2 .linux "/".data (.str "/a".data)
      "/a".data (by decide)).2⟩

/-- C10 (implicit): when the analysis worker for a path completes while its
analysis id is still current, the version cache gains an entry for the
absolute path whose `build_info` is exactly the inspection result — also when
that result is `none` (a failed inspection) — and a later analysis request
for any path whose cache entry exists applies the cached fields, flips the
status to ready and spawns no worker (the returned spawn slot is `none`), so
the external tool is never re-invoked and a failure is never retried. -/
theorem C10_failed_inspection_cached :
    (∀ (pf : Platform) (machine cwd : Str) (st : AnalyzerState) (path : Str)
        (aid : Nat) (inspected : Option Str),
      aid = st.current_analysis_id →
      ∃ c, assocGet (analysis_worker_complete pf machine cwd st path aid
              inspected).version_cache (osAbspath pf cwd path) = some c
        ∧ c.build_info = inspected)
  ∧ (∀ (pf : Platform) (cwd : Str) (st : AnalyzerState) (p : Str)
        (c : CacheEntry),
      assocGet st.version_cache (osAbspath pf cwd p) = some c →
      analyze_toe_file pf cwd st p
        = ({ st with
              build_info := c.build_info
              build_year := c.build_year
              td_url := c.td_url
              td_uri := c.td_uri
              td_filename := c.td_filename
              analysis_status := "ready_for_ui".data }, none)) := by
  constructor
  · intro pf machine cwd st path aid inspected haid
    simp only [analysis_worker_complete, if_pos haid]
    exact ⟨_, assocGet_assocSet_self _ _ _, rfl⟩
  · intro pf cwd st p c hc
    simp only [analyze_toe_file, hc]

theorem C10_failed_inspection_cached_witness :
    (∃ c, assocGet (analysis_worker_complete .linux "x86_64".data "/".data
        ⟨[], 4, none, none, none, none, none, "loading".data⟩
        "/proj/q.toe".data 4 none).version_cache
        (osAbspath .linux "/".data "/proj/q.toe".data) = some c
      ∧ c.build_info = none)
    ∧ analyze_toe_file .linux "/".data
        ⟨[("/proj/q.toe".data, ⟨none, none, none, none, none⟩)], 4,
          none, none, none, none, none, "loading".data⟩ "/proj/q.toe".data
      = (⟨[("/proj/q.toe".data, ⟨none, none, none, none, none⟩)], 4,
          none, none, none, none, none, "ready_for_ui".data⟩, none) :=
  ⟨C10_failed_inspection_cached.1 .linux "x86_64".data "/".data
      ⟨[], 4, none, none, none, none, none, "loading".data⟩
      "/proj/q.toe".data 4 none rfl,
   C10_failed_inspection_cached.2 .linux "/".data
      ⟨[("/proj/q.toe".data, ⟨none, none, none, none, none⟩)], 4,
        none, none, none, none, none, "loading".data⟩ "/proj/q.toe".data
      ⟨none, none, none, none, none⟩ (by decide)⟩

/-- C1 (amended): with `merged=false` the launcher list is returned verbatim.
With `merged=true` on Windows the result is a block drawn from the registry
TD recents followed by a block drawn from the launcher recents (so every
native entry precedes every launcher entry); on macOS it is a block drawn
from the post-sync launcher entries (stably sorted most-recent-first),
then a block drawn from the native TD recents, then a block drawn from the
older launcher entries.  Each block is the first-occurrence-wins dedup
(`mergeScan`) of its source segment given what earlier segments already
emitted — the original claim's "then all native entries" fails because a
native entry whose normalized path was already listed is dropped. -/
theorem C1_get_reconciled_recents_ordering :
    (∀ (pf : Platform) (cwd : Str) (cfg : ConfigState)
        (reg : Option (List (Str × Str))) (sfl : List (Option Str)),
      get_recent_files pf cwd cfg reg sfl false = cfg.launcher_recents)
  ∧ (∀ (cwd : Str) (cfg : ConfigState) (reg : Option (List (Str × Str)))
        (sfl : List (Option Str)), ∃ A B,
      get_recent_files .windows cwd cfg reg sfl true = A ++ B
      ∧ A = mergeScan .windows cwd []
          ((read_windows_td_recents reg).map (fun e => (some "td".data, e)))
      ∧ (∀ e ∈ A, ∃ it ∈ read_windows_td_recents reg,
          e = convEntry (some "td".data) it)
      ∧ (∀ e ∈ B, ∃ it ∈ cfg.launcher_recents, e = convEntry none it))
  ∧ (∀ (cwd : Str) (cfg : ConfigState) (reg : Option (List (Str × Str)))
        (sfl : List (Option Str)), ∃ A B C,
      get_recent_files .darwin cwd cfg reg sfl true = A ++ B ++ C
      ∧ A = mergeScan .darwin cwd []
          ((darwin_recent_sorted cfg).map (fun e => (none, PyEntry.dict e)))
      ∧ (∀ e ∈ A, ∃ it ∈ darwin_recent_sorted cfg,
          e = convEntry none (.dict it))
      ∧ (∀ e ∈ B, ∃ it ∈ darwin_td_recents cfg sfl,
          e = convEntry (some "td".data) it)
      ∧ (∀ e ∈ C, ∃ it ∈ darwin_older_launcher cfg,
          e = convEntry none (.dict it))) := by
  refine ⟨fun pf cwd cfg reg sfl => rfl, ?_, ?_⟩
  · intro cwd cfg reg sfl
    have hm := get_recent_files_eq_mergeScan .windows cwd cfg reg sfl
    simp only [merge_scan_order] at hm
    rw [mergeScan_append] at hm
    refine ⟨_, _, hm, rfl, ?_, ?_⟩
    · intro e he
      obtain ⟨ti, hti, he'⟩ := mem_mergeScan_provenance _ _ _ _ _ he
      obtain ⟨it, hit, rfl⟩ := List.mem_map.mp hti
      exact ⟨it, hit, he'⟩
    · intro e he
      obtain ⟨ti, hti, he'⟩ := mem_mergeScan_provenance _ _ _ _ _ he
      obtain ⟨it, hit, rfl⟩ := List.mem_map.mp hti
      exact ⟨it, hit, he'⟩
  · intro cwd cfg reg sfl
    have hm := get_recent_files_eq_mergeScan .darwin cwd cfg reg sfl
    simp only [merge_scan_order] at hm
    rw [mergeScan_append, mergeScan_append] at hm
    refine ⟨_, _, _, hm, rfl, ?_, ?_, ?_⟩
    · intro e he
      obtain ⟨ti, hti, he'⟩ := mem_mergeScan_provenance _ _ _ _ _ he
      obtain ⟨it, hit, rfl⟩ := List.mem_map.mp hti
      exact ⟨it, hit, he'⟩
    · intro e he
      obtain ⟨ti, hti, he'⟩ := mem_mergeScan_provenance _ _ _ _ _ he
      obtain ⟨it, hit, rfl⟩ := List.mem_map.mp hti
      exact ⟨it, hit, he'⟩
    · intro e he
      obtain ⟨ti, hti, he'⟩ := mem_mergeScan_provenance _ _ _ _ _ he
      obtain ⟨it, hit, rfl⟩ := List.mem_map.mp hti
      exact ⟨it, hit, he'⟩

/-- C1 counterexample: on the property-list platform the claimed shape
"fresh launcher entries, then ALL native entries, then older launcher
entries" fails: a native entry whose path equals an already-listed fresh
launcher entry is deduplicated away (the merged result has one entry, the
claimed sequence two). -/
theorem C1_counterexample :
    get_recent_files .darwin "/".data
        ⟨[.dict ⟨some "/a".data, none, some 5⟩], [.str "/a".data], 0, 33, []⟩
        none [] true
      ≠ (darwin_recent_sorted
            ⟨[.dict ⟨some "/a".data, none, some 5⟩], [.str "/a".data], 0, 33, []⟩).map
            (fun e => convEntry none (.dict e))
        ++ (darwin_td_recents
            ⟨[.dict ⟨some "/a".data, none, some 5⟩], [.str "/a".data], 0, 33, []⟩
            []).map (fun e => convEntry (some "td".data) e)
        ++ (darwin_older_launcher
            ⟨[.dict ⟨some "/a".data, none, some 5⟩], [.str "/a".data], 0, 33, []⟩).map
            (fun e => convEntry none (.dict e)) := by
  decide

theorem C1_get_reconciled_recents_ordering_witness :
    ∃ A B, get_recent_files .windows "C:\\w".data
        ⟨[.str "C:\\a.toe".data], [], 0, 33, []⟩
        (some [("file0".data, "C:\\b.toe".data)]) [] true = A ++ B
      ∧ A = mergeScan .windows "C:\\w".data []
          ((read_windows_td_recents
            (some [("file0".data, "C:\\b.toe".data)])).map
            (fun e => (some "td".data, e)))
      ∧ (∀ e ∈ A, ∃ it ∈ read_windows_td_recents
            (some [("file0".data, "C:\\b.toe".data)]),
          e = convEntry (some "td".data) it)
      ∧ (∀ e ∈ B, ∃ it ∈ [PyEntry.str "C:\\a.toe".data],
          e = convEntry none it) :=
  C1_get_reconciled_recents_ordering.2.1 "C:\\w".data
    ⟨[.str "C:\\a.toe".data], [], 0, 33, []⟩
    (some [("file0".data, "C:\\b.toe".data)]) []

/-- C2 (amended): for any state whose combined scan sources contain two
entries with different raw paths but equal `normalize_path` (the code's
equality: `normcase(normpath(abspath(...)))`, which is case-insensitive and
slash-normalizing only on Windows — the original claim's platform-independent
case-insensitive equality fails on macOS, where `normcase` is the identity),
the merged result is exactly the first-occurrence-wins dedup of the scan
order: its normalized paths are pairwise distinct, and every non-empty-path
source entry is represented by exactly one result entry of the same
normalized path. -/
theorem C2_dedup_each_file_once :
    ∀ (pf : Platform) (cwd : Str) (cfg : ConfigState)
      (reg : Option (List (Str × Str))) (sfl : List (Option Str)),
    (∃ t₁ ∈ merge_scan_order pf cfg reg sfl,
     ∃ t₂ ∈ merge_scan_order pf cfg reg sfl,
      get_path_from_entry t₁.2 ≠ get_path_from_entry t₂.2 ∧
      normalize_path pf cwd (get_path_from_entry t₁.2)
        = normalize_path pf cwd (get_path_from_entry t₂.2)) →
    get_recent_files pf cwd cfg reg sfl true
        = mergeScan pf cwd [] (merge_scan_order pf cfg reg sfl)
    ∧ List.Pairwise (fun a b =>
        normalize_path pf cwd (get_path_from_entry a)
          ≠ normalize_path pf cwd (get_path_from_entry b))
        (get_recent_files pf cwd cfg reg sfl true)
    ∧ ∀ ti ∈ merge_scan_order pf cfg reg sfl, get_path_from_entry ti.2 ≠ [] →
        ∃ e ∈ get_recent_files pf cwd cfg reg sfl true,
          normalize_path pf cwd (get_path_from_entry e)
            = normalize_path pf cwd (get_path_from_entry ti.2) := by
  intro pf cwd cfg reg sfl _
  have hm := get_recent_files_eq_mergeScan pf cwd cfg reg sfl
  refine ⟨hm, ?_, ?_⟩
  · rw [hm]; exact mergeScan_pairwise pf cwd _ []
  · intro ti hti hp
    rw [hm]
    exact mergeScan_complete pf cwd _ [] ti hti hp (by simp)

/-- C2 counterexample: on macOS two launcher entries whose paths differ only
in letter case are both kept (the code's `os.path.normcase` is the identity
on POSIX), so the result lists the same logical file — under the claim's
case-insensitive, slash-normalized equality (`claim_normalize`) — twice. -/
theorem C2_counterexample :
    ¬ List.Pairwise (fun a b =>
        claim_normalize .darwin "/".data (get_path_from_entry a)
          ≠ claim_normalize .darwin "/".data (get_path_from_entry b))
      (get_recent_files .darwin "/".data
        ⟨[.str "/A/f.toe".data, .str "/a/f.toe".data], [], 0, 33, []⟩
        none [] true) := by
  decide

theorem C2_dedup_each_file_once_witness :
    get_recent_files .windows "C:\\w".data
        ⟨[.str "C:\\x\\FILE.toe".data, .str "C:\\x\\file.toe".data], [], 0, 33, []⟩
        none [] true
        = mergeScan .windows "C:\\w".data []
          (merge_scan_order .windows
            ⟨[.str "C:\\x\\FILE.toe".data, .str "C:\\x\\file.toe".data], [], 0, 33, []⟩
            none [])
    ∧ List.Pairwise (fun a b =>
        normalize_path .windows "C:\\w".data (get_path_from_entry a)
          ≠ normalize_path .windows "C:\\w".data (get_path_from_entry b))
        (get_recent_files .windows "C:\\w".data
          ⟨[.str "C:\\x\\FILE.toe".data, .str "C:\\x\\file.toe".data], [], 0, 33, []⟩
          none [] true)
    ∧ ∀ ti ∈ merge_scan_order .windows
          ⟨[.str "C:\\x\\FILE.toe".data, .str "C:\\x\\file.toe".data], [], 0, 33, []⟩
          none [], get_path_from_entry ti.2 ≠ [] →
        ∃ e ∈ get_recent_files .windows "C:\\w".data
            ⟨[.str "C:\\x\\FILE.toe".data, .str "C:\\x\\file.toe".data], [], 0, 33, []⟩
            none [] true,
          normalize_path .windows "C:\\w".data (get_path_from_entry e)
            = normalize_path .windows "C:\\w".data (get_path_from_entry ti.2) :=
  C2_dedup_each_file_once .windows "C:\\w".data
    ⟨[.str "C:\\x\\FILE.toe".data, .str "C:\\x\\file.toe".data], [], 0, 33, []⟩
    none [] (by decide)

/-- C3 (amended): after `add_recent_file(p)` in a state with
`max_recent_files ≥ 1`, the head of `launcher_recents` is the fresh dict
entry for `abspath(p)` tagged `source='launcher'` with `last_opened = now`,
and no other element's stored path is string-equal to `abspath(p)` — string
equality of absolute paths, not the case-insensitive slash-normalized rule of
the original claim: the removal at config.py:277 compares raw
`os.path.abspath` results. -/
theorem C3_add_recent_file_mru :
    ∀ (pf : Platform) (cwd : Str) (cfg : ConfigState) (p : Str) (now : Int),
    1 ≤ cfg.max_recent_files →
    ∃ rest, (add_recent_file pf cwd cfg p now).launcher_recents
        = .dict ⟨some (osAbspath pf cwd p), some "launcher".data, some now⟩ :: rest
      ∧ ∀ e ∈ rest, get_path_from_entry e ≠ osAbspath pf cwd p := by
  intro pf cwd cfg p now hmax
  simp only [add_recent_file]
  rw [pyTake_cons_of_pos cfg.max_recent_files hmax]
  refine ⟨_, rfl, ?_⟩
  intro e he
  have hmem := List.take_subset _ _ he
  have := List.mem_filter.mp hmem
  simpa using this.2

/-- C3 counterexample: the removal uses plain string equality of absolute
paths, so a stored entry that differs from the added path only in separator
style survives the add; the resulting list then contains a second element
equal to the added path under the claim's normalized-path rule. -/
theorem C3_counterexample :
    ¬ (∀ e ∈ ((add_recent_file .linux "/".data
          ⟨[.str "/x//file.toe".data], [], 0, 33, []⟩
          "/x/file.toe".data 100).launcher_recents).tail,
        normalize_path .linux "/".data (get_path_from_entry e)
          ≠ normalize_path .linux "/".data
            (osAbspath .linux "/".data "/x/file.toe".data)) := by
  decide

theorem C3_add_recent_file_mru_witness :
    ∃ rest, (add_recent_file .linux "/".data
        ⟨[.str "/x//file.toe".data], [], 0, 33, []⟩
        "/x/file.toe".data 100).launcher_recents
        = .dict ⟨some (osAbspath .linux "/".data "/x/file.toe".data),
            some "launcher".data, some 100⟩ :: rest
      ∧ ∀ e ∈ rest, get_path_from_entry e
          ≠ osAbspath .linux "/".data "/x/file.toe".data :=
  C3_add_recent_file_mru .linux "/".data
    ⟨[.str "/x//file.toe".data], [], 0, 33, []⟩ "/x/file.toe".data 100
    (by decide)

/-- C4 (amended): loading a document whose only key is the legacy
`recent_files` yields a document whose `launcher_recents` equals the legacy
value — but the subsequent defaults merge re-introduces `recent_files` with
its default empty-list value, so the legacy key is still present (mapping to
`[]`), contrary to the original claim's "no longer contains the legacy key". -/
theorem C4_migration_round_trip :
    ∀ v : J, ∃ d,
      loadConfig (.content (some (.obj [("recent_files".data, v)]))) = .ok d
      ∧ dictGet d "launcher_recents".data = some v
      ∧ dictGet d "recent_files".data = some (.arr []) := by
  intro v
  exact ⟨DEFAULT_CONFIG ++ [("launcher_recents".data, v)], rfl, rfl, rfl⟩

/-- C4 counterexample: for the concrete legacy-only document
`{"recent_files": ["/a"]}` the loaded result still contains the
`recent_files` key (with the default `[]`), so no document satisfies the
claimed "launcher_recents equals the original value and the legacy key is
gone". -/
theorem C4_counterexample :
    ¬ (∃ d, loadConfig (.content (some (.obj
          [("recent_files".data, .arr [.str "/a".data])]))) = .ok d
        ∧ dictGet d "launcher_recents".data = some (.arr [.str "/a".data])
        ∧ dictGet d "recent_files".data = none) := by
  rintro ⟨d, h1, h2, h3⟩
  have he : (Except.ok (DEFAULT_CONFIG ++
      [("launcher_recents".data, J.arr [.str "/a".data])]) :
        Except Str (List (Str × J))) = .ok d :=
    (rfl : loadConfig (.content (some (.obj
      [("recent_files".data, .arr [.str "/a".data])])))
        = .ok (DEFAULT_CONFIG ++
          [("launcher_recents".data, J.arr [.str "/a".data])])).symm.trans h1
  injection he with he'
  rw [← he'] at h3
  have hv : dictGet (DEFAULT_CONFIG ++
      [("launcher_recents".data, J.arr [.str "/a".data])]) "recent_files".data
      = some (.arr []) := rfl
  rw [hv] at h3
  exact Option.noConfusion h3

/-- C5: the claim that `Load` never raises is right and the code wrong —
`Config.load` catches only `json.JSONDecodeError` and `IOError`, so a config
file that is valid JSON but not an object (e.g. the number `5`) raises an
uncaught `TypeError` out of `load`; a missing file, an I/O error and a JSON
parse failure are recovered to the all-defaults document as claimed. -/
theorem C5_load_nonobject_raises :
    loadConfig (.content (some (.num 5))) = .error "TypeError".data
    ∧ loadConfig .missing = .ok DEFAULT_CONFIG
    ∧ loadConfig .ioError = .ok DEFAULT_CONFIG
    ∧ loadConfig (.content none) = .ok DEFAULT_CONFIG
    ∧ loadConfig (.content (some (.arr [.num 1]))) = .error "TypeError".data :=
  ⟨rfl, rfl, rfl, rfl, rfl⟩
